import Mathlib

/-
  Verification of the pydatamodel parameter-store (gravity.py / agent_db.py).

  Paths and values are modelled as lists of characters; the database is an
  insertion-ordered association list mirroring a Python dict.  The calls to
  Python's `re` module are modelled by explicit left-to-right, non-overlapping
  scanners (`re.sub`) and by a small parser/backtracking matcher for the regex
  dialect that the code actually generates (`re.fullmatch`): literals,
  backslash-escaped literals, `.`, character classes such as `[0-9]`, and the
  postfix quantifiers `*`, `+`, `?`.
-/

namespace PyDM

/-- Convert a string literal to its character list. -/
def strL (s : String) : List Char := s.toList

/-- Python `str.split(".")`: splits on every dot, keeping empty segments.
`"a.b.".split(".") = ["a","b",""]` and `"".split(".") = [""]`. -/
def splitDot : List Char → List (List Char)
  | [] => [[]]
  | c :: cs =>
    if c = '.' then [] :: splitDot cs
    else
      match splitDot cs with
      | [] => [[c]]
      | s :: ss => (c :: s) :: ss

/-- Join segments, appending a dot after each one
(`"a.b." = joinDots [a-chars, b-chars]`). -/
def joinDots : List (List Char) → List Char
  | [] => []
  | s :: rest => s ++ '.' :: joinDots rest

/-- Python `path.endswith(".")`. -/
def endsDot (p : List Char) : Bool := p.getLast? == some '.'

/-- Take the maximal leading run of ASCII digits. -/
def takeDigs : List Char → List Char × List Char
  | [] => ([], [])
  | c :: cs =>
    if c.isDigit then
      let t := takeDigs cs
      (c :: t.1, t.2)
    else ([], c :: cs)

/-- `re.sub(r'\.[0-9]+\.', '.{i}.', s)` (also matches `r'\.\d+\.'` on ASCII
input): a left-to-right, non-overlapping scan; on a match the trailing dot is
consumed, so the scan resumes after it.  Fuel-indexed so that the recursion is
structural; the wrapper passes `s.length`, which is always enough fuel since
every step consumes at least one character. -/
def instSubF : Nat → List Char → List Char
  | 0, cs => cs
  | _ + 1, [] => []
  | fuel + 1, c :: cs =>
    if c = '.' ∧ (takeDigs cs).1 ≠ [] ∧ (takeDigs cs).2.take 1 = ['.'] then
      '.' :: '{' :: 'i' :: '}' :: '.' :: instSubF fuel ((takeDigs cs).2.drop 1)
    else c :: instSubF fuel cs

def instSub (cs : List Char) : List Char := instSubF cs.length cs

/-- `re.sub(r'\.\*\.', rep, s)`: replace each (non-overlapping) `.*.` run by
`rep`, consuming the trailing dot. -/
def starSubF (rep : List Char) : Nat → List Char → List Char
  | 0, cs => cs
  | _ + 1, [] => []
  | fuel + 1, c :: cs =>
    if c = '.' ∧ cs.take 2 = ['*', '.'] then rep ++ starSubF rep fuel (cs.drop 2)
    else c :: starSubF rep fuel cs

/-- `re.sub(r'\.\*\.', r'.{i}.', s)` — generic-path form of a wildcard. -/
def starSubDM (cs : List Char) : List Char := starSubF (strL ".{i}.") cs.length cs

/-- `re.sub(r'\.\*\.', r'.[0-9]+.', s)` — store-query form of a wildcard. -/
def starSubDB (cs : List Char) : List Char := starSubF (strL ".[0-9]+.") cs.length cs

/-- `re.sub(r'\.', r'\.', s)`: escape every literal dot. -/
def escDot : List Char → List Char
  | [] => []
  | c :: cs => if c = '.' then '\\' :: '.' :: escDot cs else c :: escDot cs

/-- Scan for the first `}`; fails at a newline since `.` cannot match it. -/
def findCloseAux : List Char → Option (List Char)
  | [] => none
  | c :: r => if c = '}' then some r else if c = '\n' then none else findCloseAux r

/-- `re.sub(r'\{(.+?)\}', '{i}', s)`: a `{`, at least one non-newline
character, then the first following `}`, replaced by `{i}`. -/
def bracketSubF : Nat → List Char → List Char
  | 0, cs => cs
  | _ + 1, [] => []
  | fuel + 1, c :: cs =>
    if c = '{' then
      match cs with
      | [] => ['{']
      | d :: cs2 =>
        if d = '\n' then '{' :: bracketSubF fuel cs
        else
          match findCloseAux cs2 with
          | some r => '{' :: 'i' :: '}' :: bracketSubF fuel r
          | none => '{' :: bracketSubF fuel cs
    else c :: bracketSubF fuel cs

def bracketSub (cs : List Char) : List Char := bracketSubF cs.length cs

/-- `re.sub(r'NumberOfEntries', '.', path)`: replace every occurrence of the
literal `NumberOfEntries` by a dot. -/
def noeSubF : Nat → List Char → List Char
  | 0, cs => cs
  | _ + 1, [] => []
  | fuel + 1, c :: cs =>
    if (strL "NumberOfEntries").isPrefixOf (c :: cs) then
      '.' :: noeSubF fuel ((c :: cs).drop 15)
    else c :: noeSubF fuel cs

def noeSub (cs : List Char) : List Char := noeSubF cs.length cs

/-- Atoms of the generated regex dialect. -/
inductive RAtom where
  | lit : Char → RAtom
  | anyc : RAtom
  | cls : List Char → List (Char × Char) → RAtom
  | nevr : RAtom
deriving DecidableEq, Repr

/-- Pattern elements: a single atom or an atom under a postfix quantifier. -/
inductive RElem where
  | one : RAtom → RElem
  | star : RAtom → RElem
  | plus : RAtom → RElem
  | opt : RAtom → RElem
deriving DecidableEq, Repr

def atomMatch : RAtom → Char → Bool
  | .lit c, d => c == d
  | .anyc, d => d != '\n'
  | .cls ss rs, d => ss.contains d || rs.any (fun pr => pr.1 ≤ d && d ≤ pr.2)
  | .nevr, _ => false

/-- Collect the body of a character class up to the closing `]`,
splitting it into single characters and `a-b` ranges. -/
def takeCls : List Char → (List Char × List (Char × Char)) × List Char
  | [] => (([], []), [])
  | ']' :: r => (([], []), r)
  | c :: '-' :: b :: r2 =>
    if b = ']' then (([c, '-'], []), r2)
    else
      let t := takeCls r2
      ((t.1.1, (c, b) :: t.1.2), t.2)
  | c :: r =>
    let t := takeCls r
    ((c :: t.1.1, t.1.2), t.2)

/-- Parse one atom of the pattern.  A `^` that survives to this point is not
at the start of the pattern, and in a fullmatch can never succeed. -/
def parseAtom : List Char → Option (RAtom × List Char)
  | [] => none
  | c :: r =>
    if c = '\\' then
      match r with
      | [] => some (.lit '\\', [])
      | d :: r2 => some (.lit d, r2)
    else if c = '.' then some (.anyc, r)
    else if c = '[' then
      let t := takeCls r
      some (.cls t.1.1 t.1.2, t.2)
    else if c = '^' then some (.nevr, r)
    else some (.lit c, r)

/-- Parse a pattern into elements, applying postfix quantifiers. -/
def parseF : Nat → List Char → List RElem
  | 0, _ => []
  | fuel + 1, cs =>
    match parseAtom cs with
    | none => []
    | some (a, r) =>
      if r.take 1 = ['*'] then .star a :: parseF fuel (r.drop 1)
      else if r.take 1 = ['+'] then .plus a :: parseF fuel (r.drop 1)
      else if r.take 1 = ['?'] then .opt a :: parseF fuel (r.drop 1)
      else .one a :: parseF fuel r

/-- Parse a full pattern; a leading `^` anchor is a no-op under fullmatch. -/
def parseRe (pat : List Char) : List RElem :=
  match pat with
  | '^' :: r => parseF r.length r
  | _ => parseF pat.length pat

/-- Backtracking matcher: does the element list match the whole string? -/
def matchEs : List RElem → List Char → Bool
  | [], s => s.isEmpty
  | .one a :: es, s =>
    match s with
    | [] => false
    | c :: s' => atomMatch a c && matchEs es s'
  | .opt a :: es, s =>
    matchEs es s ||
      (match s with
       | [] => false
       | c :: s' => atomMatch a c && matchEs es s')
  | .star a :: es, s =>
    (List.range (s.length + 1)).any (fun k =>
      (s.take k).all (atomMatch a) && matchEs es (s.drop k))
  | .plus a :: es, s =>
    match s with
    | [] => false
    | c :: s' =>
      atomMatch a c &&
        (List.range (s'.length + 1)).any (fun k =>
          (s'.take k).all (atomMatch a) && matchEs es (s'.drop k))

/-- `re.fullmatch(pat, s) is not None`. -/
def fullmatch (pat s : List Char) : Bool := matchEs (parseRe pat) s

/-- A value stored in the database: a JSON string or integer. -/
inductive Value where
  | s : List Char → Value
  | i : Int → Value
deriving DecidableEq, Repr

/-- Python exceptions raised by the database code. -/
inductive Err where
  | noSuchPath : List Char → Err
  | keyError : List Char → Err
  | indexError : Err
  | typeError : Err
  | attributeError : Err
  | notImplemented : Err
deriving DecidableEq, Repr

/-- The parameter store `self._db`: an insertion-ordered dict from concrete
path to value. -/
abbrev Store := List (List Char × Value)

/-- The implemented data model `self._dm`: an insertion-ordered dict from
generic path to access-mode string. -/
abbrev DM := List (List Char × List Char)

def lookupKey : Store → List Char → Option Value
  | [], _ => none
  | (k', v') :: rest, k => if k' = k then some v' else lookupKey rest k

/-- Python `path in self._db`. -/
def containsKey (db : Store) (k : List Char) : Bool := (lookupKey db k).isSome

/-- Python `self._db[path] = value`: replace in place, else append
(dict insertion order). -/
def setKey : Store → List Char → Value → Store
  | [], k, v => [(k, v)]
  | (k', v') :: rest, k, v =>
    if k' = k then (k, v) :: rest else (k', v') :: setKey rest k v

def lookupDM : DM → List Char → Option (List Char)
  | [], _ => none
  | (k', v') :: rest, k => if k' = k then some v' else lookupDM rest k

def containsDM (dm : DM) (k : List Char) : Bool := (lookupDM dm k).isSome

def dmKeys (dm : DM) : List (List Char) := dm.map (·.1)

def dbKeys (db : Store) : List (List Char) := db.map (·.1)

/-- Database state: the in-memory store and the persisted backing file
(as the key-value map last written by `_save`). -/
structure St where
  db : Store
  file : Store
deriving DecidableEq, Repr

/-- External collaborators of `get`: elapsed seconds since construction
(`__UPTIME__`), the interface address (`__IPADDR__`), and the formatted
current local time `now.strftime("%Y-%m-%dT%H:%M:%S")` (`__CURR_TIME__`). -/
structure Env where
  uptime : Int
  ipaddr : List Char
  nowStr : List Char

/-- `Database._save`: serialize the store to the backing file. -/
def save (st : St) : St := { st with file := st.db }

/-- `Database._generic_dm_path`: instance numbers and wildcards to `{i}`. -/
def generic_dm_path (p : List Char) : List Char := starSubDM (instSub p)

/-- `Database._dm_regex`: `"^" + path`, instance-number sub, wildcard sub,
dot escaping, and an unanchored tail when the path is partial. -/
def dm_regex (p : List Char) (isPart : Bool) : List Char :=
  escDot (starSubDM (instSub ('^' :: p))) ++ (if isPart then strL ".*" else [])

/-- `Database._db_regex`: `"^" + path`, wildcard to `[0-9]+`, dot escaping,
and an unanchored tail when the path is partial. -/
def db_regex (p : List Char) (isPart : Bool) : List Char :=
  escDot (starSubDB ('^' :: p)) ++ (if isPart then strL ".*" else [])

/-- `Database._is_meta_parameter` applied to one segment: starts and ends
with `__`. -/
def isMetaSeg (s : List Char) : Bool :=
  (strL "__").isPrefixOf s && (strL "__").isSuffixOf s

/-- The final segment `path_parts[len(path_parts) - 1]`. -/
def lastSeg (parts : List (List Char)) : List Char :=
  parts.getD (parts.length - 1) []

/-- Modelled from the spec: `utils.PathHelper.build_path_from_parts` (the
`utils` module is not part of this repository snapshot).  Per §4.4 of the
spec, `find_instances` returns `prefix + concreteInstanceNumber + "."` where
the instance number is appended by the caller as `parts[n] + "."`, so this
helper joins the first `n` segments, each followed by a dot. -/
def build_path_from_parts (parts : List (List Char)) (n : Nat) : List Char :=
  joinDots (parts.take n)

/-- `Database.is_param_writable`: genericize, look up in the DM
(raising `NoSuchPathError(dm_param_path)` when absent), and compare the
access mode with `"readWrite"`. -/
def is_param_writable (dm : DM) (p : List Char) : Except Err Bool :=
  let g := generic_dm_path p
  match lookupDM dm g with
  | some mode => .ok (mode = strL "readWrite")
  | none => .error (.noSuchPath g)

/-- `Database._update`: validate the genericized path against the DM and set
the key.  The `self._save()` call in the source is commented out, so the
backing file is not touched. -/
def _update (dm : DM) (st : St) (p : List Char) (v : Value) :
    Except Err Unit × St :=
  if containsDM dm (generic_dm_path p) then
    (.ok (), { st with db := setKey st.db p v })
  else (.error (.noSuchPath p), st)

/-- `Database.update`: require `is_param_writable`, else `NoSuchPathError`. -/
def update (dm : DM) (st : St) (p : List Char) (v : Value) :
    Except Err Unit × St :=
  match is_param_writable dm p with
  | .error e => (.error e, st)
  | .ok true => _update dm st p v
  | .ok false => (.error (.noSuchPath p), st)

/-- `Database.find_params`: validate the path expression against the DM via
the schema pattern, then return every store key fully matching the store
pattern whose final segment is not a meta-parameter. -/
def find_params (dm : DM) (db : Store) (p : List Char) :
    Except Err (List (List Char)) :=
  let dmRe := dm_regex p (endsDot p)
  let dbRe := db_regex p (endsDot p)
  if (dmKeys dm).any (fun k => fullmatch dmRe k) then
    .ok ((dbKeys db).filter
      (fun k => fullmatch dbRe k && ! isMetaSeg (lastSeg (splitDot k))))
  else .error (.noSuchPath p)

/-- The DM scan of `find_instances`: is some fully-matching schema key a
multi-instance object (`{i}`) at segment position `n`?  Indexing a matching
key with fewer than `n + 1` segments raises `IndexError`. -/
def fiDmCheck (dmRe : List Char) (n : Nat) : List (List Char) → Except Err Bool
  | [] => .ok false
  | k :: rest =>
    if fullmatch dmRe k then
      let parts := splitDot k
      if n < parts.length then
        if parts.getD n [] = strL "{i}" then .ok true else fiDmCheck dmRe n rest
      else .error .indexError
    else fiDmCheck dmRe n rest

/-- The store scan of `find_instances`: for each matching key, build
`built_path + path_parts[n] + "."`, skip meta segments, and deduplicate. -/
def fiLoop (dbRe : List Char) (n : Nat) :
    List (List Char) → List (List Char) → Except Err (List (List Char))
  | [], found => .ok found
  | k :: rest, found =>
    if fullmatch dbRe k then
      let parts := splitDot k
      if n < parts.length then
        let fk := build_path_from_parts parts n ++ parts.getD n [] ++ ['.']
        if isMetaSeg (parts.getD n []) then fiLoop dbRe n rest found
        else if fk ∈ found then fiLoop dbRe n rest found
        else fiLoop dbRe n rest (found ++ [fk])
      else .error .indexError
    else fiLoop dbRe n rest found

/-- `Database.find_instances`. -/
def find_instances (dm : DM) (db : Store) (pp : List Char) :
    Except Err (List (List Char)) :=
  if endsDot pp then
    let n := (splitDot pp).length - 1
    match fiDmCheck (dm_regex pp true) n (dmKeys dm) with
    | .error e => .error e
    | .ok true => fiLoop (db_regex pp true) n (dbKeys db) []
    | .ok false => .error (.noSuchPath pp)
  else .error (.noSuchPath pp)

/-- The store scan of `find_objects`: for each matching key, keep only
`build_path_from_parts(path_parts, n)` (the next-level segment is not
appended), deduplicated. -/
def foLoop (dbRe : List Char) (n : Nat) :
    List (List Char) → List (List Char) → List (List Char)
  | [], found => found
  | k :: rest, found =>
    if fullmatch dbRe k then
      let fk := build_path_from_parts (splitDot k) n
      if fk ∈ found then foLoop dbRe n rest found
      else foLoop dbRe n rest (found ++ [fk])
    else foLoop dbRe n rest found

/-- `Database.find_objects`. -/
def find_objects (dm : DM) (db : Store) (pp : List Char) :
    Except Err (List (List Char)) :=
  if endsDot pp then
    let n := (splitDot pp).length - 1
    if (dmKeys dm).any (fun k => fullmatch (dm_regex pp true) k) then
      .ok (foLoop (db_regex pp true) n (dbKeys db) [])
    else .error (.noSuchPath pp)
  else .error (.noSuchPath pp)

/-- The DM scan of `find_impl_objects`: collect one found key per matching
schema key (next level past the input when `nextLevel`, else the key minus
its final segment), skipping duplicates and the genericized input itself. -/
def fioLoop (dmRe : List Char) (n : Nat) (genPP : List Char) (nextLevel : Bool) :
    List (List Char) → List (List Char) → List (List Char)
  | [], found => found
  | k :: rest, found =>
    if fullmatch dmRe k then
      let parts := splitDot k
      let fk : Option (List Char) :=
        if nextLevel then
          if n + 1 < parts.length then
            some (build_path_from_parts parts n ++ parts.getD n [] ++ ['.'])
          else none
        else some (build_path_from_parts parts (parts.length - 1))
      match fk with
      | some f =>
        if f ∈ found then fioLoop dmRe n genPP nextLevel rest found
        else if f = genPP then fioLoop dmRe n genPP nextLevel rest found
        else fioLoop dmRe n genPP nextLevel rest (found ++ [f])
      | none => fioLoop dmRe n genPP nextLevel rest found
    else fioLoop dmRe n genPP nextLevel rest found

/-- `Database.find_impl_objects`: queries the schema, not the store. -/
def find_impl_objects (dm : DM) (pp : List Char) (nextLevel : Bool) :
    Except Err (List (List Char)) :=
  if endsDot pp then
    let n := (splitDot pp).length - 1
    let found := fioLoop (dm_regex pp true) n (generic_dm_path pp) nextLevel (dmKeys dm) []
    if (dmKeys dm).any (fun k => fullmatch (dm_regex pp true) k) then .ok found
    else .error (.noSuchPath pp)
  else .error (.noSuchPath pp)

/-- Resolution of a stored value by `Database.get` when `path in self._db`:
the four marker tokens are resolved dynamically, anything else is returned
as stored.  `__CURR_TIME__` reads `self._db["Device.Time.LocalTimeZone"]`
with a bare dict lookup — `KeyError` when the key is absent, and
`AttributeError` when its value is an integer (no `.split`).  Only a
time-zone whose first comma-separated token is `CST6CDT` yields the
`-06:00` suffix; every other token yields `Z`. -/
def resolveStored (env : Env) (dm : DM) (db : Store) (p : List Char) (v : Value) :
    Except Err Value :=
  match v with
  | .i _ => .ok v
  | .s cs =>
    if cs = strL "__UPTIME__" then .ok (.i env.uptime)
    else if cs = strL "__IPADDR__" then .ok (.s env.ipaddr)
    else if cs = strL "__CURR_TIME__" then
      match lookupKey db (strL "Device.Time.LocalTimeZone") with
      | none => .error (.keyError (strL "Device.Time.LocalTimeZone"))
      | some (.i _) => .error .attributeError
      | some (.s tz) =>
        let tzPart := tz.takeWhile (fun c => c ≠ ',')
        .ok (.s (env.nowStr ++
          (if tzPart = strL "CST6CDT" then strL "-06:00" else strL "Z")))
    else if cs = strL "__NUM_ENTRIES__" then
      match find_instances dm db (noeSub p) with
      | .ok l => .ok (.i l.length)
      | .error e => .error e
    else .ok v

/-- Is a value one of the four literal marker tokens that `Database.get`
resolves dynamically instead of returning as stored? -/
def isMarkerVal : Value → Bool
  | .i _ => false
  | .s cs =>
    decide (cs = strL "__UPTIME__") || decide (cs = strL "__IPADDR__") ||
    decide (cs = strL "__CURR_TIME__") || decide (cs = strL "__NUM_ENTRIES__")

/-- Result of `Database.get`: a single value, or (for a stored-object
request via `get_obj`) a dict of parameter path to value. -/
inductive GetRes where
  | val : Value → GetRes
  | obj : List (List Char × Value) → GetRes
deriving DecidableEq, Repr

/-- The loop of `Database.get_obj`: resolve each found parameter.  In the
source this calls `self.get(item)`; every `item` produced by `find_params`
is a store key, so the lookup always succeeds and `get` reduces to stored-
value resolution (the `none` branch is unreachable). -/
def getItems (env : Env) (dm : DM) (db : Store) :
    List (List Char) → Except Err (List (List Char × Value))
  | [] => .ok []
  | it :: rest =>
    match lookupKey db it with
    | some v =>
      match resolveStored env dm db it v with
      | .error e => .error e
      | .ok rv =>
        match getItems env dm db rest with
        | .error e => .error e
        | .ok tl => .ok ((it, rv) :: tl)
    | none => .error (.noSuchPath it)

/-- `Database.get_obj`. -/
def get_obj (env : Env) (dm : DM) (db : Store) (pp : List Char) :
    Except Err (List (List Char × Value)) :=
  match find_params dm db pp with
  | .error e => .error e
  | .ok items => getItems env dm db items

/-- `Database.get`: resolve a stored key, fall back to `get_obj` for a
partial path, else `NoSuchPathError`. -/
def get (env : Env) (dm : DM) (db : Store) (p : List Char) :
    Except Err GetRes :=
  match lookupKey db p with
  | some v => (resolveStored env dm db p v).map GetRes.val
  | none =>
    if endsDot p then (get_obj env dm db p).map GetRes.obj
    else .error (.noSuchPath p)

/-- `self._supported_insert_path_list` of gravity.py. -/
def supported_insert_path_list : List (List Char) :=
  [strL "Device.Services.HomeAutomation.{i}.Camera.{i}.Pic.",
   strL "Device.Test."]

/-- `Database.insert`: require a schema-declared next level, normalize the
path (brackets and numeric instance segments to `{i}`) and require it in the
supported-insert list; then read the `NumberOfEntries` counter via `get`
(defaulting to 1 when `get` raises `NoSuchPathError`), write it back via the
DM-validated `_update`, persist, and return it.  Adding an integer to a
non-integer counter value would raise `TypeError`. -/
def insert (env : Env) (dm : DM) (st : St) (pp : List Char) :
    Except Err Int × St :=
  match find_impl_objects dm pp true with
  | .error e => (.error e, st)
  | .ok found =>
    if found.isEmpty then (.error (.noSuchPath pp), st)
    else
      let norm := instSub (bracketSub pp)
      if norm ∈ supported_insert_path_list then
        let cPath := pp.dropLast ++ strL "NumberOfEntries"
        let nextRes : Except Err Int :=
          match get env dm st.db cPath with
          | .ok (.val (.i m)) => .ok (m + 1)
          | .ok _ => .error .typeError
          | .error (.noSuchPath _) => .ok 1
          | .error e => .error e
        match nextRes with
        | .error e => (.error e, st)
        | .ok nxt =>
          match _update dm st cPath (.i nxt) with
          | (.ok _, st2) => (.ok nxt, save st2)
          | (.error e, st2) => (.error e, st2)
      else (.error (.noSuchPath pp), st)

/-- `agent_db.py`'s `Database.update`: no schema or writability check — set
the key when it is already stored, else `NoSuchPathError`; the `_save` call
is commented out, so the backing file is never written. -/
def agent_update (st : St) (p : List Char) (v : Value) :
    Except Err Unit × St :=
  if containsKey st.db p then (.ok (), { st with db := setKey st.db p v })
  else (.error (.noSuchPath p), st)

instance {e a : Type} [DecidableEq e] [DecidableEq a] : DecidableEq (Except e a) := fun x y =>
  match x, y with
  | .ok u, .ok v =>
    if h : u = v then .isTrue (by rw [h]) else .isFalse (by intro hh; cases hh; exact h rfl)
  | .error u, .error v =>
    if h : u = v then .isTrue (by rw [h]) else .isFalse (by intro hh; cases hh; exact h rfl)
  | .ok _, .error _ => .isFalse (by intro hh; cases hh)
  | .error _, .ok _ => .isFalse (by intro hh; cases hh)

/-- A plain path character: alphanumeric, underscore, or dot.  Plain paths
contain no wildcard or regex metacharacter, so the generated store pattern
is a literal anchored prefix followed by `.*`. -/
def plainChar (c : Char) : Bool := c.isAlphanum || c = '_' || c = '.'

def plainB (p : List Char) : Bool := p.all plainChar

/-! ### Lemmas about the substitution scanners -/

lemma instSubF_cons_ne (fuel : Nat) (c : Char) (cs : List Char) (h : c ≠ '.') :
    instSubF (fuel + 1) (c :: cs) = c :: instSubF fuel cs := by
  simp only [instSubF]
  rw [if_neg]
  intro hh
  exact h hh.1

lemma instSub_caret (p : List Char) : instSub ('^' :: p) = '^' :: instSub p := by
  unfold instSub
  rw [List.length_cons]
  exact instSubF_cons_ne _ _ _ (by decide)

lemma starSubF_cons_ne (rep : List Char) (fuel : Nat) (c : Char) (cs : List Char)
    (h : c ≠ '.') : starSubF rep (fuel + 1) (c :: cs) = c :: starSubF rep fuel cs := by
  simp only [starSubF]
  rw [if_neg]
  intro hh
  exact h hh.1

lemma starSubDM_caret (p : List Char) : starSubDM ('^' :: p) = '^' :: starSubDM p := by
  unfold starSubDM
  rw [List.length_cons]
  exact starSubF_cons_ne _ _ _ _ (by decide)

lemma escDot_cons_ne (c : Char) (cs : List Char) (h : c ≠ '.') :
    escDot (c :: cs) = c :: escDot cs := by
  simp only [escDot]
  rw [if_neg h]

/-! ### Store lemmas -/

lemma lookupKey_setKey (db : Store) (k : List Char) (v : Value) :
    lookupKey (setKey db k v) k = some v := by
  induction db with
  | nil => simp [setKey, lookupKey]
  | cons kv rest ih =>
    by_cases h : kv.1 = k
    · simp [setKey, h, lookupKey]
    · simp [setKey, h, lookupKey, ih]

lemma resolveStored_not_marker (env : Env) (dm : DM) (db : Store) (p : List Char)
    (v : Value) (h : isMarkerVal v = false) : resolveStored env dm db p v = .ok v := by
  cases v with
  | i n => rfl
  | s cs =>
    simp only [isMarkerVal, Bool.or_eq_false_iff, decide_eq_false_iff_not] at h
    obtain ⟨⟨⟨h1, h2⟩, h3⟩, h4⟩ := h
    simp [resolveStored, h1, h2, h3, h4]

/-! ### Path-splitting lemmas -/

lemma splitDot_ne_nil (p : List Char) : splitDot p ≠ [] := by
  cases p with
  | nil => simp [splitDot]
  | cons c cs =>
    unfold splitDot
    by_cases h : c = '.'
    · simp [h]
    · rw [if_neg h]
      cases hs : splitDot cs <;> simp

lemma splitDot_no_dot : ∀ (p : List Char), ∀ s ∈ splitDot p, '.' ∉ s := by
  intro p
  induction p with
  | nil =>
    intro s hs
    simp [splitDot] at hs
    simp [hs]
  | cons c cs ih =>
    intro s hs
    unfold splitDot at hs
    by_cases h : c = '.'
    · rw [if_pos h] at hs
      rcases List.mem_cons.mp hs with h0 | h0
      · simp [h0]
      · exact ih s h0
    · rw [if_neg h] at hs
      cases hsp : splitDot cs with
      | nil => exact absurd hsp (splitDot_ne_nil cs)
      | cons s0 ss =>
        rw [hsp] at hs
        rcases List.mem_cons.mp hs with h0 | h0
        · subst h0
          intro hmem
          rcases List.mem_cons.mp hmem with h1 | h1
          · exact h h1.symm
          · exact ih s0 (hsp ▸ List.mem_cons_self s0 ss) h1
        · exact ih s (hsp ▸ List.mem_cons_of_mem s0 h0)

lemma splitDot_cons_ne (a : Char) (cs : List Char) (ha : a ≠ '.')
    (s : List Char) (ss : List (List Char)) (h : splitDot cs = s :: ss) :
    splitDot (a :: cs) = (a :: s) :: ss := by
  unfold splitDot
  rw [if_neg ha, h]

lemma splitDot_seg_append (s u : List Char) (h : '.' ∉ s) :
    splitDot (s ++ '.' :: u) = s :: splitDot u := by
  induction s with
  | nil => simp [splitDot]
  | cons a s' ih =>
    have ha : a ≠ '.' := fun hh => h (hh ▸ List.mem_cons_self a s')
    have h' : '.' ∉ s' := fun hh => h (List.mem_cons_of_mem a hh)
    show splitDot (a :: (s' ++ '.' :: u)) = (a :: s') :: splitDot u
    exact splitDot_cons_ne a _ ha s' (splitDot u) (ih h')

lemma splitDot_joinDots_append (segs : List (List Char)) (t : List Char)
    (h : ∀ s ∈ segs, '.' ∉ s) :
    splitDot (joinDots segs ++ t) = segs ++ splitDot t := by
  induction segs with
  | nil => simp [joinDots]
  | cons s rest ih =>
    have h1 : '.' ∉ s := h s (List.mem_cons_self s rest)
    have h2 : ∀ x ∈ rest, '.' ∉ x := fun x hx => h x (List.mem_cons_of_mem s hx)
    show splitDot ((s ++ '.' :: joinDots rest) ++ t) = (s :: rest) ++ splitDot t
    rw [List.append_assoc, List.cons_append]
    rw [splitDot_seg_append s (joinDots rest ++ t) h1, ih h2]
    rfl

lemma getD_append_len (l1 l2 : List (List Char)) (x : List Char) :
    (l1 ++ x :: l2).getD l1.length [] = x := by
  induction l1 with
  | nil => rfl
  | cons a rest ih => simpa [List.getD] using ih

/-- The segment structure of a key built by `find_instances`:
splitting `build_path_from_parts(parts, n) ++ parts[n] ++ "."` puts
`parts[n]` back at position `n`. -/
lemma splitDot_built (k : List Char) (n : Nat) (hn : n < (splitDot k).length) :
    splitDot (build_path_from_parts (splitDot k) n ++ (splitDot k).getD n [] ++ ['.']) =
      (splitDot k).take n ++ [(splitDot k).getD n [], []] := by
  unfold build_path_from_parts
  rw [List.append_assoc]
  rw [splitDot_joinDots_append _ _
    (fun s hs => splitDot_no_dot k s (List.mem_of_mem_take hs))]
  have hseg : '.' ∉ (splitDot k).getD n [] := by
    have hmem : (splitDot k).getD n [] ∈ splitDot k := by
      rw [List.getD_eq_getElem (splitDot k) [] hn]
      exact (splitDot k).getElem_mem hn
    exact splitDot_no_dot k _ hmem
  have : (splitDot k).getD n [] ++ ['.'] = (splitDot k).getD n [] ++ '.' :: [] := rfl
  rw [this, splitDot_seg_append _ _ hseg]
  rfl

lemma take_length_of_lt {α : Type} (l : List α) (n : Nat) (h : n < l.length) :
    (l.take n).length = n := by
  simp [List.length_take]
  omega

/-- Membership description of the `find_instances` store loop: every element
of the result was already accumulated or is derived from some matching,
non-meta key. -/
lemma fiLoop_mem_spec (dbRe : List Char) (n : Nat) :
    ∀ (keys found l : List (List Char)), fiLoop dbRe n keys found = .ok l →
      ∀ e ∈ l, e ∈ found ∨
        ∃ k ∈ keys, fullmatch dbRe k = true ∧ n < (splitDot k).length ∧
          isMetaSeg ((splitDot k).getD n []) = false ∧
          e = build_path_from_parts (splitDot k) n ++ (splitDot k).getD n [] ++ ['.'] := by
  intro keys
  induction keys with
  | nil =>
    intro found l h e he
    unfold fiLoop at h
    cases h
    exact Or.inl he
  | cons k rest ih =>
    intro found l h e he
    unfold fiLoop at h
    by_cases hm : fullmatch dbRe k = true
    · rw [if_pos hm] at h
      by_cases hlen : n < (splitDot k).length
      · rw [if_pos hlen] at h
        by_cases hmeta : isMetaSeg ((splitDot k).getD n []) = true
        · rw [if_pos hmeta] at h
          rcases ih found l h e he with h0 | ⟨k', hk', hrest⟩
          · exact Or.inl h0
          · exact Or.inr ⟨k', List.mem_cons_of_mem k hk', hrest⟩
        · rw [if_neg hmeta] at h
          by_cases hdup :
              build_path_from_parts (splitDot k) n ++ (splitDot k).getD n [] ++ ['.'] ∈ found
          · rw [if_pos hdup] at h
            rcases ih found l h e he with h0 | ⟨k', hk', hrest⟩
            · exact Or.inl h0
            · exact Or.inr ⟨k', List.mem_cons_of_mem k hk', hrest⟩
          · rw [if_neg hdup] at h
            rcases ih _ l h e he with h0 | ⟨k', hk', hrest⟩
            · rcases List.mem_append.mp h0 with h1 | h1
              · exact Or.inl h1
              · refine Or.inr ⟨k, List.mem_cons_self k rest, hm, hlen, ?_, ?_⟩
                · exact Bool.eq_false_iff.mpr hmeta
                · simpa using h1
            · exact Or.inr ⟨k', List.mem_cons_of_mem k hk', hrest⟩
      · rw [if_neg hlen] at h
        cases h
    · rw [if_neg hm] at h
      rcases ih found l h e he with h0 | ⟨k', hk', hrest⟩
      · exact Or.inl h0
      · exact Or.inr ⟨k', List.mem_cons_of_mem k hk', hrest⟩

/-! ### Plain paths and the store pattern -/

lemma plainChar_spec (c : Char) (h : plainChar c = true) :
    c ≠ '\\' ∧ c ≠ '[' ∧ c ≠ '^' ∧ c ≠ '*' ∧ c ≠ '+' ∧ c ≠ '?' := by
  refine ⟨?_, ?_, ?_, ?_, ?_, ?_⟩ <;> intro he <;> subst he <;> exact absurd h (by decide)

lemma plainB_cons (c : Char) (cs : List Char) (h : plainB (c :: cs) = true) :
    plainChar c = true ∧ plainB cs = true := by
  simpa [plainB] using h

lemma starSubF_plain (rep : List Char) : ∀ (p : List Char), plainB p = true →
    starSubF rep p.length p = p := by
  intro p
  induction p with
  | nil => intro _; rfl
  | cons c cs ih =>
    intro h
    obtain ⟨hc, hcs⟩ := plainB_cons c cs h
    have hne : ¬(c = '.' ∧ cs.take 2 = ['*', '.']) := by
      rintro ⟨_, h2⟩
      cases cs with
      | nil => simp at h2
      | cons a t =>
        simp [List.take] at h2
        have hpa : plainChar a = true := (plainB_cons a t hcs).1
        rw [h2.1] at hpa
        exact absurd hpa (by decide)
    rw [List.length_cons]
    show starSubF rep (cs.length + 1) (c :: cs) = c :: cs
    unfold starSubF
    rw [if_neg hne, ih hcs]

lemma parseF_nil (f : Nat) : parseF f [] = [] := by cases f <;> rfl

lemma escDot_take_one (p' : List Char) (h : plainB p' = true) :
    ∃ c, (escDot p' ++ strL ".*").take 1 = [c] ∧ c ≠ '*' ∧ c ≠ '+' ∧ c ≠ '?' := by
  cases p' with
  | nil => exact ⟨'.', rfl, by decide, by decide, by decide⟩
  | cons d p'' =>
    by_cases hd : d = '.'
    · refine ⟨'\\', ?_, by decide, by decide, by decide⟩
      simp [escDot, hd]
    · obtain ⟨_, _, _, h4, h5, h6⟩ := plainChar_spec d (plainB_cons d p'' h).1
      refine ⟨d, ?_, h4, h5, h6⟩
      simp [escDot, hd]

lemma parseF_escDot : ∀ (p : List Char) (fuel : Nat), plainB p = true →
    (escDot p ++ strL ".*").length ≤ fuel →
    parseF fuel (escDot p ++ strL ".*") =
      p.map (fun c => RElem.one (RAtom.lit c)) ++ [RElem.star RAtom.anyc] := by
  intro p
  induction p with
  | nil =>
    intro fuel _ hf
    cases fuel with
    | zero => simp [escDot, strL] at hf
    | succ f =>
      have hstep : parseF (f + 1) (escDot [] ++ strL ".*") =
          RElem.star RAtom.anyc :: parseF f [] := rfl
      rw [hstep, parseF_nil]
      rfl
  | cons c p' ih =>
    intro fuel hpl hf
    obtain ⟨hc, hp'⟩ := plainB_cons c p' hpl
    obtain ⟨c0, hc0, hq1, hq2, hq3⟩ := escDot_take_one p' hp'
    by_cases hdot : c = '.'
    · subst hdot
      have he : escDot ('.' :: p') ++ strL ".*" =
          '\\' :: '.' :: (escDot p' ++ strL ".*") := by
        simp [escDot]
      rw [he]
      rw [he] at hf
      cases fuel with
      | zero => simp at hf
      | succ f =>
        have hlen : (escDot p' ++ strL ".*").length ≤ f := by
          simp only [List.length_cons, List.length_append] at hf ⊢
          omega
        have hpa : parseAtom ('\\' :: '.' :: (escDot p' ++ strL ".*")) =
            some (.lit '.', escDot p' ++ strL ".*") := rfl
        simp only [parseF, hpa]
        rw [hc0]
        rw [if_neg (by simp [hq1]), if_neg (by simp [hq2]), if_neg (by simp [hq3])]
        rw [ih f hp' hlen]
        rfl
    · obtain ⟨hb1, hb2, hb3, _, _, _⟩ := plainChar_spec c hc
      have he : escDot (c :: p') ++ strL ".*" = c :: (escDot p' ++ strL ".*") := by
        simp [escDot, hdot]
      rw [he]
      rw [he] at hf
      cases fuel with
      | zero => simp at hf
      | succ f =>
        have hlen : (escDot p' ++ strL ".*").length ≤ f := by
          simp only [List.length_cons, List.length_append] at hf ⊢
          omega
        have hpa : parseAtom (c :: (escDot p' ++ strL ".*")) =
            some (.lit c, escDot p' ++ strL ".*") := by
          simp only [parseAtom]
          rw [if_neg hb1, if_neg hdot, if_neg hb2, if_neg hb3]
        simp only [parseF, hpa]
        rw [hc0]
        rw [if_neg (by simp [hq1]), if_neg (by simp [hq2]), if_neg (by simp [hq3])]
        rw [ih f hp' hlen]
        rfl

lemma matchEs_lits_star : ∀ (p k : List Char),
    matchEs (p.map (fun c => RElem.one (RAtom.lit c)) ++ [RElem.star RAtom.anyc]) k = true →
    p <+: k := by
  intro p
  induction p with
  | nil => intro k _; exact List.nil_prefix
  | cons c p' ih =>
    intro k h
    cases k with
    | nil => simp [matchEs] at h
    | cons d k' =>
      have h' : (atomMatch (RAtom.lit c) d &&
          matchEs (p'.map (fun x => RElem.one (RAtom.lit x)) ++ [RElem.star RAtom.anyc]) k')
          = true := by
        simpa [matchEs] using h
      obtain ⟨h1, h2⟩ := Bool.and_eq_true_iff.mp h'
      have hcd : c = d := by simpa [atomMatch] using h1
      subst hcd
      obtain ⟨t, ht⟩ := ih k' h2
      exact ⟨t, by rw [← ht]; rfl⟩

lemma db_regex_plain (p : List Char) (h : plainB p = true) :
    db_regex p true = '^' :: (escDot p ++ strL ".*") := by
  unfold db_regex
  have h1 : starSubDB ('^' :: p) = '^' :: p := by
    unfold starSubDB
    rw [List.length_cons]
    rw [starSubF_cons_ne _ _ _ _ (by decide)]
    rw [starSubF_plain _ p h]
  rw [h1, escDot_cons_ne _ _ (by decide), List.cons_append]
  simp

lemma fullmatch_db_pref (p k : List Char) (hp : plainB p = true)
    (hm : fullmatch (db_regex p true) k = true) : p <+: k := by
  rw [db_regex_plain p hp] at hm
  unfold fullmatch at hm
  have hre : parseRe ('^' :: (escDot p ++ strL ".*")) =
      parseF (escDot p ++ strL ".*").length (escDot p ++ strL ".*") := rfl
  rw [hre] at hm
  rw [parseF_escDot p _ hp (le_refl _)] at hm
  exact matchEs_lits_star p k hm

/-! ### Rebuilding the prefix from a matching key -/

lemma endsDot_cons (c : Char) (q : List Char) (hq : q ≠ []) :
    endsDot (c :: q) = endsDot q := by
  unfold endsDot
  cases q with
  | nil => exact absurd rfl hq
  | cons d q' => rw [List.getLast?_cons_cons]

lemma endsDot_single (c : Char) (h : endsDot [c] = true) : c = '.' := by
  simpa [endsDot] using h

lemma dropLast_cons_ne {α : Type} (a : α) (l : List α) (h : l ≠ []) :
    (a :: l).dropLast = a :: l.dropLast := by
  cases l with
  | nil => exact absurd rfl h
  | cons b l' => rfl

lemma splitDot_len_two (q : List Char) (h : endsDot q = true) :
    2 ≤ (splitDot q).length := by
  induction q with
  | nil => simp [endsDot] at h
  | cons c q' ih =>
    by_cases hq : q' = []
    · subst hq
      have := endsDot_single c h
      subst this
      decide
    · have hq2 : endsDot q' = true := by rw [endsDot_cons c q' hq] at h; exact h
      have ihq := ih hq2
      unfold splitDot
      by_cases hc : c = '.'
      · rw [if_pos hc]
        have := splitDot_ne_nil q'
        simp [List.length_cons]
        omega
      · rw [if_neg hc]
        cases hsp : splitDot q' with
        | nil => exact absurd hsp (splitDot_ne_nil q')
        | cons s ss =>
          rw [hsp] at ihq
          simp [List.length_cons] at ihq ⊢
          omega

lemma splitDot_append_endsDot : ∀ (p : List Char), endsDot p = true → ∀ t,
    splitDot (p ++ t) = (splitDot p).dropLast ++ splitDot t := by
  intro p
  induction p with
  | nil => intro h; simp [endsDot] at h
  | cons c p' ih =>
    intro h t
    by_cases hp' : p' = []
    · subst hp'
      have hc := endsDot_single c h
      subst hc
      have h1 : splitDot ('.' :: t) = [] :: splitDot t := by simp [splitDot]
      have h2 : (splitDot ['.']).dropLast = [[]] := by decide
      show splitDot ('.' :: t) = (splitDot ['.']).dropLast ++ splitDot t
      rw [h1, h2]
      rfl
    · have hq2 : endsDot p' = true := by rw [endsDot_cons c p' hp'] at h; exact h
      by_cases hc : c = '.'
      · subst hc
        have h1 : splitDot ('.' :: (p' ++ t)) = [] :: splitDot (p' ++ t) := by
          simp [splitDot]
        have h2 : splitDot ('.' :: p') = [] :: splitDot p' := by simp [splitDot]
        show splitDot ('.' :: (p' ++ t)) = (splitDot ('.' :: p')).dropLast ++ splitDot t
        rw [h1, ih hq2 t, h2, dropLast_cons_ne _ _ (splitDot_ne_nil p')]
        rfl
      · have hlen := splitDot_len_two p' hq2
        cases hsp : splitDot p' with
        | nil => exact absurd hsp (splitDot_ne_nil p')
        | cons s ss =>
          have hss : ss ≠ [] := by
            rw [hsp] at hlen
            simp [List.length_cons] at hlen
            intro hh
            subst hh
            simp at hlen
          have hsplit_pt : splitDot (p' ++ t) = s :: (ss.dropLast ++ splitDot t) := by
            rw [ih hq2 t, hsp, dropLast_cons_ne _ _ hss]
            rfl
          have hL : splitDot ((c :: p') ++ t) = (c :: s) :: (ss.dropLast ++ splitDot t) := by
            show splitDot (c :: (p' ++ t)) = (c :: s) :: (ss.dropLast ++ splitDot t)
            exact splitDot_cons_ne c _ hc _ _ hsplit_pt
          have hR : splitDot (c :: p') = (c :: s) :: ss :=
            splitDot_cons_ne c p' hc s ss hsp
          rw [hL, hR, dropLast_cons_ne _ _ hss]
          rfl

lemma joinDots_dropLast : ∀ (p : List Char), endsDot p = true →
    joinDots ((splitDot p).dropLast) = p := by
  intro p
  induction p with
  | nil => intro h; simp [endsDot] at h
  | cons c p' ih =>
    intro h
    by_cases hp' : p' = []
    · subst hp'
      have hc := endsDot_single c h
      subst hc
      decide
    · have hq2 : endsDot p' = true := by rw [endsDot_cons c p' hp'] at h; exact h
      by_cases hc : c = '.'
      · subst hc
        have h2 : splitDot ('.' :: p') = [] :: splitDot p' := by simp [splitDot]
        rw [h2, dropLast_cons_ne _ _ (splitDot_ne_nil p')]
        show [] ++ '.' :: joinDots ((splitDot p').dropLast) = '.' :: p'
        rw [ih hq2]
        rfl
      · have hlen := splitDot_len_two p' hq2
        cases hsp : splitDot p' with
        | nil => exact absurd hsp (splitDot_ne_nil p')
        | cons s ss =>
          have hss : ss ≠ [] := by
            rw [hsp] at hlen
            simp [List.length_cons] at hlen
            intro hh
            subst hh
            simp at hlen
          have h2 : splitDot (c :: p') = (c :: s) :: ss :=
            splitDot_cons_ne c p' hc s ss hsp
          rw [h2, dropLast_cons_ne _ _ hss]
          have hih : joinDots ((splitDot p').dropLast) = p' := ih hq2
          rw [hsp, dropLast_cons_ne _ _ hss] at hih
          have hih' : s ++ '.' :: joinDots ss.dropLast = p' := hih
          show (c :: s) ++ '.' :: joinDots ss.dropLast = c :: p'
          rw [List.cons_append, hih']

lemma build_eq_of_pref (p k : List Char) (hed : endsDot p = true)
    (hpre : p <+: k) :
    build_path_from_parts (splitDot k) ((splitDot p).length - 1) = p := by
  obtain ⟨t, ht⟩ := hpre
  subst ht
  unfold build_path_from_parts
  rw [splitDot_append_endsDot p hed t]
  have hlen : (splitDot p).dropLast.length = (splitDot p).length - 1 :=
    List.length_dropLast _
  rw [← hlen, List.take_left]
  exact joinDots_dropLast p hed

/-! ### Specifications of the find loops -/

lemma fiLoop_subset (dbRe : List Char) (n : Nat) :
    ∀ (keys found l : List (List Char)), fiLoop dbRe n keys found = .ok l →
      ∀ e ∈ found, e ∈ l := by
  intro keys
  induction keys with
  | nil =>
    intro found l h e he
    unfold fiLoop at h
    cases h
    exact he
  | cons k rest ih =>
    intro found l h e he
    unfold fiLoop at h
    by_cases hm : fullmatch dbRe k = true
    · rw [if_pos hm] at h
      by_cases hlen : n < (splitDot k).length
      · rw [if_pos hlen] at h
        by_cases hmeta : isMetaSeg ((splitDot k).getD n []) = true
        · rw [if_pos hmeta] at h
          exact ih _ _ h e he
        · rw [if_neg hmeta] at h
          by_cases hdup : build_path_from_parts (splitDot k) n ++
              (splitDot k).getD n [] ++ ['.'] ∈ found
          · rw [if_pos hdup] at h
            exact ih _ _ h e he
          · rw [if_neg hdup] at h
            exact ih _ _ h e (List.mem_append_left _ he)
      · rw [if_neg hlen] at h
        cases h
    · rw [if_neg hm] at h
      exact ih _ _ h e he

lemma fiLoop_complete (dbRe : List Char) (n : Nat) :
    ∀ (keys found l : List (List Char)), fiLoop dbRe n keys found = .ok l →
      ∀ k ∈ keys, fullmatch dbRe k = true →
        isMetaSeg ((splitDot k).getD n []) = false →
        (build_path_from_parts (splitDot k) n ++ (splitDot k).getD n [] ++ ['.']) ∈ l := by
  intro keys
  induction keys with
  | nil =>
    intro found l _ k hk
    exact absurd hk (List.not_mem_nil k)
  | cons k0 rest ih =>
    intro found l h k hk hm hmeta
    unfold fiLoop at h
    rcases List.mem_cons.mp hk with heq | hmem
    · subst heq
      rw [if_pos hm] at h
      by_cases hlen : n < (splitDot k).length
      · rw [if_pos hlen] at h
        rw [if_neg (by rw [hmeta]; exact Bool.false_ne_true)] at h
        by_cases hdup : build_path_from_parts (splitDot k) n ++
            (splitDot k).getD n [] ++ ['.'] ∈ found
        · rw [if_pos hdup] at h
          exact fiLoop_subset dbRe n rest found l h _ hdup
        · rw [if_neg hdup] at h
          exact fiLoop_subset dbRe n rest _ l h _ (by simp)
      · rw [if_neg hlen] at h
        cases h
    · by_cases hm0 : fullmatch dbRe k0 = true
      · rw [if_pos hm0] at h
        by_cases hlen0 : n < (splitDot k0).length
        · rw [if_pos hlen0] at h
          by_cases hmeta0 : isMetaSeg ((splitDot k0).getD n []) = true
          · rw [if_pos hmeta0] at h
            exact ih _ _ h k hmem hm hmeta
          · rw [if_neg hmeta0] at h
            by_cases hdup0 : build_path_from_parts (splitDot k0) n ++
                (splitDot k0).getD n [] ++ ['.'] ∈ found
            · rw [if_pos hdup0] at h
              exact ih _ _ h k hmem hm hmeta
            · rw [if_neg hdup0] at h
              exact ih _ _ h k hmem hm hmeta
        · rw [if_neg hlen0] at h
          cases h
      · rw [if_neg hm0] at h
        exact ih _ _ h k hmem hm hmeta

lemma fiLoop_nodup (dbRe : List Char) (n : Nat) :
    ∀ (keys found l : List (List Char)), found.Nodup →
      fiLoop dbRe n keys found = .ok l → l.Nodup := by
  intro keys
  induction keys with
  | nil =>
    intro found l hnd h
    unfold fiLoop at h
    cases h
    exact hnd
  | cons k rest ih =>
    intro found l hnd h
    unfold fiLoop at h
    by_cases hm : fullmatch dbRe k = true
    · rw [if_pos hm] at h
      by_cases hlen : n < (splitDot k).length
      · rw [if_pos hlen] at h
        by_cases hmeta : isMetaSeg ((splitDot k).getD n []) = true
        · rw [if_pos hmeta] at h
          exact ih _ _ hnd h
        · rw [if_neg hmeta] at h
          by_cases hdup : build_path_from_parts (splitDot k) n ++
              (splitDot k).getD n [] ++ ['.'] ∈ found
          · rw [if_pos hdup] at h
            exact ih _ _ hnd h
          · rw [if_neg hdup] at h
            refine ih _ _ ?_ h
            rw [List.nodup_append]
            refine ⟨hnd, List.nodup_singleton _, fun a ha hb => ?_⟩
            rw [List.mem_singleton] at hb
            subst hb
            exact hdup ha
      · rw [if_neg hlen] at h
        cases h
    · rw [if_neg hm] at h
      exact ih _ _ hnd h

lemma fiDmCheck_spec (dmRe : List Char) (n : Nat) :
    ∀ (keys : List (List Char)),
      (∀ k ∈ keys, fullmatch dmRe k = true → n < (splitDot k).length) →
      fiDmCheck dmRe n keys =
        .ok (keys.any (fun k => fullmatch dmRe k &&
          decide ((splitDot k).getD n [] = strL "{i}"))) := by
  intro keys
  induction keys with
  | nil => intro _; rfl
  | cons k rest ih =>
    intro hbound
    unfold fiDmCheck
    by_cases hm : fullmatch dmRe k = true
    · rw [if_pos hm, if_pos (hbound k (List.mem_cons_self k rest) hm)]
      by_cases hik : (splitDot k).getD n [] = strL "{i}"
      · rw [if_pos hik]
        rw [List.any_cons, hm, decide_eq_true hik]
        rfl
      · rw [if_neg hik]
        rw [ih (fun k' hk' => hbound k' (List.mem_cons_of_mem k hk'))]
        rw [List.any_cons, hm, decide_eq_false hik]
        rfl
    · rw [if_neg hm]
      rw [ih (fun k' hk' => hbound k' (List.mem_cons_of_mem k hk'))]
      have hmf : fullmatch dmRe k = false := Bool.eq_false_iff.mpr hm
      rw [List.any_cons, hmf]
      rfl

lemma find_instances_ok (dm : DM) (db : Store) (p : List Char)
    (l : List (List Char)) (h : find_instances dm db p = .ok l) :
    endsDot p = true ∧
    fiDmCheck (dm_regex p true) ((splitDot p).length - 1) (dmKeys dm) = .ok true ∧
    fiLoop (db_regex p true) ((splitDot p).length - 1) (dbKeys db) [] = .ok l := by
  simp only [find_instances] at h
  by_cases hed : endsDot p = true
  · rw [if_pos hed] at h
    cases hchk : fiDmCheck (dm_regex p true) ((splitDot p).length - 1) (dmKeys dm) with
    | error e => rw [hchk] at h; cases h
    | ok b =>
      rw [hchk] at h
      cases b with
      | false => cases h
      | true => exact ⟨hed, rfl, h⟩
  · rw [if_neg hed] at h
    cases h

/-! ### Claim theorems -/

/-- C6 counterexample: the substitutions are non-overlapping left-to-right
scans, so in `"Device.1.2.X"` the second instance run `.2.` — whose leading
dot was consumed by the replacement of `.1.` — is NOT replaced:
`_generic_dm_path` yields `"Device.{i}.2.X"`, not `"Device.{i}.{i}.X"`, and
`_dm_regex` likewise keeps the literal `2`. -/
theorem c6_counterexample :
    generic_dm_path (strL "Device.1.2.X") = strL "Device.{i}.2.X" ∧
    generic_dm_path (strL "Device.1.2.X") ≠ strL "Device.{i}.{i}.X" ∧
    dm_regex (strL "Device.1.2.X") false = strL "^Device\\.{i}\\.2\\.X" := by
  refine ⟨by decide, by decide, by decide⟩

/-- C6 (amended): `_dm_regex` and `_generic_dm_path` apply the identical
substitution pass (instance-number runs, then wildcard runs, left-to-right
and non-overlapping), so for every path and partial flag the schema pattern
is exactly the caret, the dot-escaped generic path, and the optional
unanchored tail — the two functions agree on which positions are instance
positions for all inputs. -/
theorem c6_dm_regex_agrees_with_generic_path (p : List Char) (b : Bool) :
    dm_regex p b =
      '^' :: (escDot (generic_dm_path p) ++ (if b then strL ".*" else [])) := by
  unfold dm_regex generic_dm_path
  rw [instSub_caret, starSubDM_caret, escDot_cons_ne _ _ (by decide), List.cons_append]

/-- C6 witness: the agreement equation at a concrete path. -/
theorem c6_witness :
    dm_regex (strL "Device.1.*.X") true =
      '^' :: (escDot (generic_dm_path (strL "Device.1.*.X")) ++ strL ".*") :=
  c6_dm_regex_agrees_with_generic_path (strL "Device.1.*.X") true

/-- C1 counterexample: in the claim's exact scenario — schema
`{"Device.Test.{i}.": "readWrite"}`, empty store — `insert("Device.Test.")`
does not return 1: the counter path `"Device.TestNumberOfEntries"` is not in
the implemented data model, so the DM-validated `_update` raises
`NoSuchPathError("Device.TestNumberOfEntries")` and the store and file are
left unchanged. -/
theorem c1_counterexample :
    insert ⟨5, strL "10.0.0.1", strL "2026-01-01T00:00:00"⟩
        [(strL "Device.Test.{i}.", strL "readWrite")] ⟨[], []⟩
        (strL "Device.Test.") =
      (.error (.noSuchPath (strL "Device.TestNumberOfEntries")), ⟨[], []⟩) := by
  decide

/-- C1 (amended): with the counter parameter `"Device.TestNumberOfEntries"`
additionally present in the schema, the scenario behaves as claimed:
`insert("Device.Test.")` reads the counter through `get` (the raised
`NoSuchPathError` on the empty store defaults it so that 1 is allocated),
writes the new value back, persists the whole store to the backing file, and
returns 1; a second insert reads the stored counter 1, increments it, writes
and persists 2, and returns 2. -/
theorem c1_insert_allocates_consecutive :
    let env : Env := ⟨5, strL "10.0.0.1", strL "2026-01-01T00:00:00"⟩
    let dm : DM := [(strL "Device.Test.{i}.", strL "readWrite"),
                    (strL "Device.TestNumberOfEntries", strL "readOnly")]
    let r1 := insert env dm ⟨[], []⟩ (strL "Device.Test.")
    let r2 := insert env dm r1.2 (strL "Device.Test.")
    r1.1 = .ok 1 ∧
    r1.2.db = [(strL "Device.TestNumberOfEntries", .i 1)] ∧
    r1.2.file = r1.2.db ∧
    r2.1 = .ok 2 ∧
    r2.2.db = [(strL "Device.TestNumberOfEntries", .i 2)] ∧
    r2.2.file = r2.2.db := by
  exact ⟨by decide, by decide, by decide, by decide, by decide, by decide⟩

/-- C2: evaluation of `find_objects` at the failing input.  With schema
`{"Device.Radio.{i}.Channel": "readOnly"}` and store keys
`Device.Radio.1.Channel`, `Device.Radio.2.Channel`, the source computes
`found_key = build_path_from_parts(path_parts, n)` WITHOUT appending
`path_parts[n] + "."`, so `find_objects("Device.Radio.")` returns the
prefix-level truncation `["Device.Radio."]` instead of the next-level paths
`["Device.Radio.1.", "Device.Radio.2."]` promised by its own
"path to the next level" comment and by the claim. -/
theorem c2_find_objects_drops_next_segment :
    find_objects [(strL "Device.Radio.{i}.Channel", strL "readOnly")]
        [(strL "Device.Radio.1.Channel", .s (strL "a")),
         (strL "Device.Radio.2.Channel", .s (strL "b"))]
        (strL "Device.Radio.") = .ok [strL "Device.Radio."] ∧
    (.ok [strL "Device.Radio."] : Except Err (List (List Char))) ≠
      .ok [strL "Device.Radio.1.", strL "Device.Radio.2."] := by
  refine ⟨by decide, by decide⟩

/-- C3 counterexample: the round trip fails for marker values.  With schema
`{"A.B": "readWrite"}`, `update("A.B", "__UPTIME__")` succeeds (the path is
writable), but `get("A.B")` then resolves the marker and returns the elapsed
uptime (here 5), not the stored string `"__UPTIME__"`. -/
theorem c3_counterexample :
    let env : Env := ⟨5, strL "10.0.0.1", strL "2026-01-01T00:00:00"⟩
    let dm : DM := [(strL "A.B", strL "readWrite")]
    let r := update dm ⟨[], []⟩ (strL "A.B") (.s (strL "__UPTIME__"))
    r.1 = .ok () ∧
    get env dm r.2.db (strL "A.B") = .ok (.val (.i 5)) ∧
    get env dm r.2.db (strL "A.B") ≠ .ok (.val (.s (strL "__UPTIME__"))) := by
  exact ⟨by decide, by decide, by decide⟩

/-- C3 (amended): for every path with `is_param_writable` true and every
value that is not one of the four marker tokens, `update(p, v)` succeeds and
a following `get(p)` returns exactly `v`; `update` on a read-only path or on
a path whose genericized form is absent from the schema raises
`NoSuchPathError` and leaves the store (and file) unchanged. -/
theorem c3_update_get_roundtrip (env : Env) (dm : DM) (st : St) (p : List Char)
    (v : Value) :
    (is_param_writable dm p = .ok true → isMarkerVal v = false →
      (update dm st p v).1 = .ok () ∧
      get env dm (update dm st p v).2.db p = .ok (.val v)) ∧
    (lookupDM dm (generic_dm_path p) = none →
      update dm st p v = (.error (.noSuchPath (generic_dm_path p)), st)) ∧
    (∀ mode, lookupDM dm (generic_dm_path p) = some mode →
      mode ≠ strL "readWrite" →
      update dm st p v = (.error (.noSuchPath p), st)) := by
  refine ⟨?_, ?_, ?_⟩
  · intro hw hm
    have hdm : containsDM dm (generic_dm_path p) = true := by
      cases hl : lookupDM dm (generic_dm_path p) with
      | none => simp only [is_param_writable, hl] at hw; cases hw
      | some mode => simp [containsDM, hl]
    have hupd : update dm st p v = (.ok (), { st with db := setKey st.db p v }) := by
      unfold update
      rw [hw]
      unfold _update
      rw [if_pos hdm]
    refine ⟨by rw [hupd], ?_⟩
    rw [hupd]
    show get env dm (setKey st.db p v) p = .ok (.val v)
    unfold get
    rw [lookupKey_setKey]
    show (resolveStored env dm (setKey st.db p v) p v).map GetRes.val = .ok (.val v)
    rw [resolveStored_not_marker env dm _ p v hm]
    rfl
  · intro hn
    unfold update
    simp only [is_param_writable, hn]
  · intro mode hm hne
    unfold update
    simp only [is_param_writable, hm]
    rw [decide_eq_false hne]

/-- C3 witness: the round trip at a concrete writable path and
non-marker value, via `c3_update_get_roundtrip`. -/
theorem c3_witness :
    (update [(strL "A.B", strL "readWrite")] ⟨[], []⟩ (strL "A.B")
        (.s (strL "hello"))).1 = .ok () ∧
    get ⟨5, strL "ip", strL "now"⟩ [(strL "A.B", strL "readWrite")]
        (update [(strL "A.B", strL "readWrite")] ⟨[], []⟩ (strL "A.B")
          (.s (strL "hello"))).2.db (strL "A.B") =
      .ok (.val (.s (strL "hello"))) :=
  (c3_update_get_roundtrip ⟨5, strL "ip", strL "now"⟩
      [(strL "A.B", strL "readWrite")] ⟨[], []⟩ (strL "A.B")
      (.s (strL "hello"))).1 (by decide) (by decide)

/-- C4 counterexample: a successful `update` stores the value but does NOT
flush to the backing file — the `self._save()` call inside `_update` is
commented out in the source.  Concretely the store map changes but the
persisted file stays empty and differs from the store. -/
theorem c4_counterexample :
    let r := update [(strL "A.B", strL "readWrite")] ⟨[], []⟩ (strL "A.B")
      (.s (strL "x"))
    r.1 = .ok () ∧
    r.2.db = [(strL "A.B", .s (strL "x"))] ∧
    r.2.file = [] ∧
    r.2.file ≠ r.2.db := by
  exact ⟨by decide, by decide, by decide, by decide⟩

/-- C4 (amended): every successful `update(path, value)` stores the concrete
value in the store map, but never writes the backing file: the persisted
file component is unchanged by `update` in all cases (persistence happens
only in operations that call `_save`, such as `insert` and `delete`). -/
theorem c4_update_stores_without_persisting (dm : DM) (st : St) (p : List Char)
    (v : Value) :
    (update dm st p v).2.file = st.file ∧
    ((update dm st p v).1 = .ok () → (update dm st p v).2.db = setKey st.db p v) := by
  unfold update
  cases hw : is_param_writable dm p with
  | error e => exact ⟨rfl, by intro h; exact absurd h (by simp)⟩
  | ok b =>
    cases b with
    | false => exact ⟨rfl, by intro h; exact absurd h (by simp)⟩
    | true =>
      unfold _update
      by_cases hdm : containsDM dm (generic_dm_path p) = true
      · rw [if_pos hdm]
        exact ⟨rfl, fun _ => rfl⟩
      · rw [if_neg hdm]
        exact ⟨rfl, by intro h; exact absurd h (by simp)⟩

/-- C4 witness: `c4_update_stores_without_persisting` at a concrete input. -/
theorem c4_witness :
    (update [(strL "A.B", strL "readWrite")] ⟨[], []⟩ (strL "A.B")
        (.s (strL "x"))).2.file = [] ∧
    (update [(strL "A.B", strL "readWrite")] ⟨[], []⟩ (strL "A.B")
        (.s (strL "x"))).2.db = setKey [] (strL "A.B") (.s (strL "x")) :=
  ⟨(c4_update_stores_without_persisting [(strL "A.B", strL "readWrite")]
      ⟨[], []⟩ (strL "A.B") (.s (strL "x"))).1,
   (c4_update_stores_without_persisting [(strL "A.B", strL "readWrite")]
      ⟨[], []⟩ (strL "A.B") (.s (strL "x"))).2 (by decide)⟩

/-- C5: `find_instances` raises `NoSuchPathError` when the partial path does
not end in a dot, and also when no fully-matching schema key has the `{i}`
placeholder at the segment position immediately following the prefix (the
bound hypothesis rules out the degenerate `IndexError` of indexing a
matching schema key that is shorter than the prefix).  On success with a
plain (metacharacter-free) prefix, the result is duplicate-free and consists
exactly of the strings `prefix ++ instanceSegment ++ "."` observed among the
store keys that fully match the store pattern, meta segments excluded. -/
theorem c5_find_instances_spec (dm : DM) (db : Store) (p : List Char) :
    (endsDot p = false → find_instances dm db p = .error (.noSuchPath p)) ∧
    (endsDot p = true →
      (∀ k ∈ dmKeys dm, fullmatch (dm_regex p true) k = true →
        (splitDot p).length - 1 < (splitDot k).length) →
      (¬ ∃ k ∈ dmKeys dm, fullmatch (dm_regex p true) k = true ∧
        (splitDot k).getD ((splitDot p).length - 1) [] = strL "{i}") →
      find_instances dm db p = .error (.noSuchPath p)) ∧
    (plainB p = true → ∀ l, find_instances dm db p = .ok l →
      l.Nodup ∧
      (∀ e ∈ l, ∃ k ∈ dbKeys db, fullmatch (db_regex p true) k = true ∧
        isMetaSeg ((splitDot k).getD ((splitDot p).length - 1) []) = false ∧
        e = p ++ (splitDot k).getD ((splitDot p).length - 1) [] ++ ['.']) ∧
      (∀ k ∈ dbKeys db, fullmatch (db_regex p true) k = true →
        isMetaSeg ((splitDot k).getD ((splitDot p).length - 1) []) = false →
        (p ++ (splitDot k).getD ((splitDot p).length - 1) [] ++ ['.']) ∈ l)) := by
  refine ⟨?_, ?_, ?_⟩
  · intro hed
    simp only [find_instances]
    rw [if_neg (by rw [hed]; exact Bool.false_ne_true)]
  · intro hed hbound hne
    have hany : (dmKeys dm).any (fun k => fullmatch (dm_regex p true) k &&
        decide ((splitDot k).getD ((splitDot p).length - 1) [] = strL "{i}")) = false := by
      rw [Bool.eq_false_iff]
      intro hcontra
      obtain ⟨k, hk, hfk⟩ := List.any_eq_true.mp hcontra
      obtain ⟨h1, h2⟩ := Bool.and_eq_true_iff.mp hfk
      exact hne ⟨k, hk, h1, of_decide_eq_true h2⟩
    simp only [find_instances]
    rw [if_pos hed]
    rw [fiDmCheck_spec (dm_regex p true) ((splitDot p).length - 1) (dmKeys dm) hbound]
    rw [hany]
  · intro hpl l hok
    obtain ⟨hed, _, hloop⟩ := find_instances_ok dm db p l hok
    refine ⟨fiLoop_nodup _ _ _ _ _ (List.nodup_nil) hloop, ?_, ?_⟩
    · intro e he
      rcases fiLoop_mem_spec _ _ _ _ _ hloop e he with h0 | ⟨k, hk, hm, _, hmeta, heq⟩
      · exact absurd h0 (List.not_mem_nil e)
      · refine ⟨k, hk, hm, hmeta, ?_⟩
        rw [heq, build_eq_of_pref p k hed (fullmatch_db_pref p k hpl hm)]
    · intro k hk hm hmeta
      have := fiLoop_complete _ _ _ _ _ hloop k hk hm hmeta
      rwa [build_eq_of_pref p k hed (fullmatch_db_pref p k hpl hm)] at this

/-- C5 witness: the Radio scenario.  `find_instances("Device.Radio.")`
against store keys `Device.Radio.1.Channel`, `Device.Radio.2.Channel` with
schema `Device.Radio.{i}.Channel` succeeds with the duplicate-free result
`["Device.Radio.1.", "Device.Radio.2."]`, whose members
`c5_find_instances_spec` certifies to be built as prefix + instance number
+ "."; and a non-dot-terminated path fails with `NoSuchPathError`. -/
theorem c5_witness :
    ([strL "Device.Radio.1.", strL "Device.Radio.2."].Nodup ∧
      ((strL "Device.Radio.") ++
        (splitDot (strL "Device.Radio.1.Channel")).getD
          ((splitDot (strL "Device.Radio.")).length - 1) [] ++ ['.']) ∈
        [strL "Device.Radio.1.", strL "Device.Radio.2."]) ∧
    find_instances [(strL "Device.Radio.{i}.Channel", strL "readOnly")]
        [(strL "Device.Radio.1.Channel", .s (strL "a")),
         (strL "Device.Radio.2.Channel", .s (strL "b"))]
        (strL "Device.Radio") = .error (.noSuchPath (strL "Device.Radio")) := by
  constructor
  · have h := (c5_find_instances_spec
      [(strL "Device.Radio.{i}.Channel", strL "readOnly")]
      [(strL "Device.Radio.1.Channel", .s (strL "a")),
       (strL "Device.Radio.2.Channel", .s (strL "b"))]
      (strL "Device.Radio.")).2.2 (by decide)
      [strL "Device.Radio.1.", strL "Device.Radio.2."] (by decide)
    exact ⟨h.1, h.2.2 (strL "Device.Radio.1.Channel") (by decide) (by decide) (by decide)⟩
  · exact (c5_find_instances_spec
      [(strL "Device.Radio.{i}.Channel", strL "readOnly")]
      [(strL "Device.Radio.1.Channel", .s (strL "a")),
       (strL "Device.Radio.2.Channel", .s (strL "b"))]
      (strL "Device.Radio")).1 (by decide)

/-- C7: meta-parameters are excluded from enumeration results.  For every
schema, store and path, every entry of a successful `find_params` result has
a final segment that does not both start and end with `__`, and every entry
of a successful `find_instances` result has a segment at the instance
position (the position immediately following the given prefix) that does
not both start and end with `__`. -/
theorem c7_meta_params_excluded (dm : DM) (db : Store) (p : List Char) :
    (∀ l, find_params dm db p = .ok l →
      ∀ e ∈ l, isMetaSeg (lastSeg (splitDot e)) = false) ∧
    (∀ l, find_instances dm db p = .ok l →
      ∀ e ∈ l, isMetaSeg ((splitDot e).getD ((splitDot p).length - 1) []) = false) := by
  constructor
  · intro l hl e he
    unfold find_params at hl
    by_cases hdm :
        (dmKeys dm).any (fun k => fullmatch (dm_regex p (endsDot p)) k) = true
    · rw [if_pos hdm] at hl
      cases hl
      have hpred := (List.mem_filter.mp he).2
      have h2 := (Bool.and_eq_true _ _ |>.mp hpred).2
      simpa using h2
    · rw [if_neg hdm] at hl
      cases hl
  · intro l hl e he
    simp only [find_instances] at hl
    by_cases hed : endsDot p = true
    · rw [if_pos hed] at hl
      cases hchk : fiDmCheck (dm_regex p true) ((splitDot p).length - 1) (dmKeys dm) with
      | error e' => rw [hchk] at hl; cases hl
      | ok b =>
        rw [hchk] at hl
        cases b with
        | false => cases hl
        | true =>
          rcases fiLoop_mem_spec _ _ _ _ _ hl e he with h0 | ⟨k, _, _, hn, hmeta, heq⟩
          · exact absurd h0 (List.not_mem_nil e)
          · subst heq
            rw [splitDot_built k _ hn]
            have hx := getD_append_len
              ((splitDot k).take ((splitDot p).length - 1)) [[]]
              ((splitDot k).getD ((splitDot p).length - 1) [])
            rw [take_length_of_lt (splitDot k) _ hn] at hx
            rw [hx]
            exact hmeta
    · rw [if_neg hed] at hl
      cases hl

/-- C7 witness: `c7_meta_params_excluded` at a concrete schema and store
containing a meta-parameter (`Device.__M__`, `Device.T.__Boot__.X`),
which both enumerations omit. -/
theorem c7_witness :
    (∀ e ∈ [strL "Device.A"], isMetaSeg (lastSeg (splitDot e)) = false) ∧
    (∀ e ∈ [strL "Device.T.1."],
      isMetaSeg ((splitDot e).getD ((splitDot (strL "Device.T.")).length - 1) []) = false) := by
  constructor
  · exact (c7_meta_params_excluded
      [(strL "Device.A", strL "readOnly")]
      [(strL "Device.A", .s (strL "1")), (strL "Device.__M__", .s (strL "x"))]
      (strL "Device.")).1 [strL "Device.A"] (by decide)
  · exact (c7_meta_params_excluded
      [(strL "Device.T.{i}.X", strL "readOnly")]
      [(strL "Device.T.1.X", .s (strL "1")),
       (strL "Device.T.__Boot__.X", .s (strL "x"))]
      (strL "Device.T.")).2 [strL "Device.T.1."] (by decide)

/-- C10: `agent_db.py`'s `update` performs no schema or writability check:
it succeeds exactly when the path is already a key of the store map (so a
readOnly parameter can be updated and an unstored parameter can never be
created), mutates the store in place on success, returns
`NoSuchPathError` leaving everything unchanged otherwise, and in every case
leaves the backing file untouched. -/
theorem c10_agent_update_no_validation (st : St) (p : List Char) (v : Value) :
    ((agent_update st p v).1 = .ok () ↔ containsKey st.db p = true) ∧
    (agent_update st p v).2.file = st.file ∧
    (containsKey st.db p = true → (agent_update st p v).2.db = setKey st.db p v) ∧
    (containsKey st.db p = false →
      agent_update st p v = (.error (.noSuchPath p), st)) := by
  unfold agent_update
  by_cases h : containsKey st.db p = true
  · rw [if_pos h]
    refine ⟨⟨fun _ => h, fun _ => rfl⟩, rfl, fun _ => rfl, ?_⟩
    intro hf
    rw [h] at hf
    cases hf
  · rw [if_neg h]
    refine ⟨⟨fun hh => absurd hh (by simp), fun ht => absurd ht h⟩, rfl, ?_, fun _ => rfl⟩
    intro ht
    exact absurd ht h

/-- C9: resolving a stored `__CURR_TIME__` marker performs a bare dict
lookup of `"Device.Time.LocalTimeZone"`: when that key is absent, `get`
fails with `KeyError` (not `NoSuchPathError`); when it holds a string, only
a time-zone whose first comma-separated token equals `CST6CDT` yields the
`-06:00` suffix, and every other token yields `Z`. -/
theorem c9_curr_time_resolution (env : Env) (dm : DM) (db : Store) (p : List Char)
    (h : lookupKey db p = some (.s (strL "__CURR_TIME__"))) :
    (lookupKey db (strL "Device.Time.LocalTimeZone") = none →
      get env dm db p = .error (.keyError (strL "Device.Time.LocalTimeZone"))) ∧
    (∀ tz, lookupKey db (strL "Device.Time.LocalTimeZone") = some (.s tz) →
      get env dm db p = .ok (.val (.s (env.nowStr ++
        (if tz.takeWhile (fun c => c ≠ ',') = strL "CST6CDT"
         then strL "-06:00" else strL "Z"))))) := by
  have hg : get env dm db p =
      (resolveStored env dm db p (.s (strL "__CURR_TIME__"))).map GetRes.val := by
    unfold get
    rw [h]
  have hr : resolveStored env dm db p (.s (strL "__CURR_TIME__")) =
      match lookupKey db (strL "Device.Time.LocalTimeZone") with
      | none => .error (.keyError (strL "Device.Time.LocalTimeZone"))
      | some (.i _) => .error .attributeError
      | some (.s tz) =>
        .ok (.s (env.nowStr ++
          (if tz.takeWhile (fun c => c ≠ ',') = strL "CST6CDT"
           then strL "-06:00" else strL "Z"))) := by
    rfl
  constructor
  · intro hn
    rw [hg, hr, hn]
    rfl
  · intro tz htz
    rw [hg, hr, htz]
    rfl

/-- C9 witness: `c9_curr_time_resolution` at concrete stores — the key
absent (KeyError), a `CST6CDT` zone (fixed offset), and another zone
(`Z`). -/
theorem c9_witness :
    get ⟨5, strL "ip", strL "T"⟩ []
        [(strL "Device.Time.CurrentLocalTime", .s (strL "__CURR_TIME__"))]
        (strL "Device.Time.CurrentLocalTime") =
      .error (.keyError (strL "Device.Time.LocalTimeZone")) ∧
    get ⟨5, strL "ip", strL "T"⟩ []
        [(strL "Device.Time.CurrentLocalTime", .s (strL "__CURR_TIME__")),
         (strL "Device.Time.LocalTimeZone", .s (strL "CST6CDT,M3.2.0"))]
        (strL "Device.Time.CurrentLocalTime") =
      .ok (.val (.s (strL "T-06:00"))) ∧
    get ⟨5, strL "ip", strL "T"⟩ []
        [(strL "Device.Time.CurrentLocalTime", .s (strL "__CURR_TIME__")),
         (strL "Device.Time.LocalTimeZone", .s (strL "UTC"))]
        (strL "Device.Time.CurrentLocalTime") =
      .ok (.val (.s (strL "TZ"))) := by
  refine ⟨?_, ?_, ?_⟩
  · exact (c9_curr_time_resolution ⟨5, strL "ip", strL "T"⟩ []
      [(strL "Device.Time.CurrentLocalTime", .s (strL "__CURR_TIME__"))]
      (strL "Device.Time.CurrentLocalTime") (by decide)).1 (by decide)
  · have := (c9_curr_time_resolution ⟨5, strL "ip", strL "T"⟩ []
      [(strL "Device.Time.CurrentLocalTime", .s (strL "__CURR_TIME__")),
       (strL "Device.Time.LocalTimeZone", .s (strL "CST6CDT,M3.2.0"))]
      (strL "Device.Time.CurrentLocalTime") (by decide)).2
      (strL "CST6CDT,M3.2.0") (by decide)
    rw [this]
    decide
  · have := (c9_curr_time_resolution ⟨5, strL "ip", strL "T"⟩ []
      [(strL "Device.Time.CurrentLocalTime", .s (strL "__CURR_TIME__")),
       (strL "Device.Time.LocalTimeZone", .s (strL "UTC"))]
      (strL "Device.Time.CurrentLocalTime") (by decide)).2
      (strL "UTC") (by decide)
    rw [this]
    decide

/-- C10 witness: `c10_agent_update_no_validation` at a concrete stored key
(one that a schema would call readOnly — the schema is never consulted). -/
theorem c10_witness :
    (agent_update ⟨[(strL "A.B", .i 0)], []⟩ (strL "A.B") (.i 7)).1 = .ok () ∧
    (agent_update ⟨[(strL "A.B", .i 0)], []⟩ (strL "A.B") (.i 7)).2.db =
      setKey [(strL "A.B", .i 0)] (strL "A.B") (.i 7) ∧
    (agent_update ⟨[(strL "A.B", .i 0)], []⟩ (strL "A.B") (.i 7)).2.file = [] :=
  ⟨((c10_agent_update_no_validation ⟨[(strL "A.B", .i 0)], []⟩ (strL "A.B")
      (.i 7)).1).mpr (by decide),
   (c10_agent_update_no_validation ⟨[(strL "A.B", .i 0)], []⟩ (strL "A.B")
      (.i 7)).2.2.1 (by decide),
   (c10_agent_update_no_validation ⟨[(strL "A.B", .i 0)], []⟩ (strL "A.B")
      (.i 7)).2.1⟩

end PyDM
